import Mathlib

/-!
Verification of the auth-once whitelist subsystem of the fast-socks5
example servers (src/examples/server_auth_once.rs and
src/examples/server.rs), as a shallow embedding.

Modelling conventions:
* `SystemTime` is modelled as whole seconds since the Unix epoch (a `Nat`).
  Every comparison the code performs on times goes through
  `Duration::as_secs` (in `WhitelistEntry::is_expired` and in the
  `timestamp_serde` module), so whole seconds is exactly the granularity
  the code observes.
* `HashMap<IpAddr, WhitelistEntry>` is modelled as an association list with
  the usual lookup/insert(overwrite)/remove operations; IP addresses are
  abstract keys (`Nat`).
* The filesystem is modelled as an association list from paths to file
  contents plus a modification time; a path is a directory, a stem and an
  optional extension, mirroring the parts of `std::path::Path` the code
  uses (`with_extension`, `file_stem`, file names inside one directory).
* Fallible operations return `Except String`; injected I/O failures
  (write, rename, copy) are explicit boolean parameters.
-/

namespace FastSocks

/-! ## Generic association-list maps (model of HashMap and of a directory) -/

def alistLookup {α β : Type} [DecidableEq α] : List (α × β) → α → Option β
  | [], _ => none
  | (k, v) :: rest, a => if k = a then some v else alistLookup rest a

def alistRemove {α β : Type} [DecidableEq α] : List (α × β) → α → List (α × β)
  | [], _ => []
  | e :: rest, a =>
    if e.1 = a then alistRemove rest a else e :: alistRemove rest a

def alistSet {α β : Type} [DecidableEq α] (l : List (α × β)) (a : α) (v : β) :
    List (α × β) :=
  (a, v) :: alistRemove l a

/-! ## WhitelistEntry (server_auth_once.rs lines 99-135) -/

structure WhitelistEntry where
  added_at : Nat
  ttl_seconds : Option Nat
  first_auth_user : Option String
  connection_count : Nat
deriving DecidableEq, Repr

/-- `WhitelistEntry::new`: `added_at = SystemTime::now()`, counter starts at 0. -/
def WhitelistEntry.new (now : Nat) (ttl_seconds : Option Nat)
    (auth_user : Option String) : WhitelistEntry :=
  { added_at := now
    ttl_seconds := ttl_seconds
    first_auth_user := auth_user
    connection_count := 0 }

/-- `self.added_at.elapsed()`: `Err` (modelled `none`) exactly when the clock
has regressed below `added_at`. -/
def WhitelistEntry.elapsedSecs (e : WhitelistEntry) (now : Nat) : Option Nat :=
  if now < e.added_at then none else some (now - e.added_at)

/-- `WhitelistEntry::is_expired`: no ttl means never expired; with a ttl,
expired when the elapsed whole seconds strictly exceed it; a clock
regression counts as expired. -/
def WhitelistEntry.is_expired (e : WhitelistEntry) (now : Nat) : Bool :=
  match e.ttl_seconds with
  | some ttl =>
    match e.elapsedSecs now with
    | some elapsed => decide (elapsed > ttl)
    | none => true
  | none => false

/-- `WhitelistEntry::increment_usage`. -/
def WhitelistEntry.increment_usage (e : WhitelistEntry) : WhitelistEntry :=
  { e with connection_count := e.connection_count + 1 }

/-! ## AuthState in-memory cache (server_auth_once.rs lines 158-364) -/

abbrev IpAddr := Nat
abbrev Cache := List (IpAddr × WhitelistEntry)

structure AuthState where
  cache : Cache
  dirty : Bool
deriving DecidableEq, Repr

/-- `AuthState::is_authenticated`: a mutating read.  Expired entries are
removed and `dirty` is set; a live hit increments the usage counter. -/
def AuthState.is_authenticated (s : AuthState) (ip : IpAddr) (now : Nat) :
    Bool × AuthState :=
  match alistLookup s.cache ip with
  | some entry =>
    if entry.is_expired now then
      (false, { cache := alistRemove s.cache ip, dirty := true })
    else
      (true, { s with cache := alistSet s.cache ip entry.increment_usage })
  | none => (false, s)

/-- `AuthState::add_authenticated_ip`: inserts (overwriting) a fresh entry
with `added_at = now` and sets `dirty`.  The optional immediate save when
`save_interval == 0` is modelled separately in the persistence layer. -/
def AuthState.add_authenticated_ip (s : AuthState) (ip : IpAddr)
    (ttl_seconds : Option Nat) (auth_user : String) (now : Nat) : AuthState :=
  { cache := alistSet s.cache ip (WhitelistEntry.new now ttl_seconds (some auth_user))
    dirty := true }

/-! ## Method negotiation (server.rs lines 113-158 and 177-197) -/

inductive AuthMode where
  | noAuth
  | password (username : String) (pw : String)
deriving DecidableEq, Repr

/-- The method list of a greeting buffer: `buf[2 .. 2 + buf[1]]`. -/
def methodsOf (bytes : List Nat) : List Nat :=
  match bytes with
  | _ :: b1 :: rest => rest.take b1
  | _ => []

/-- The `selected_method` computation of server.rs lines 137-151. -/
def selectMethod (methods : List Nat) (whitelisted : Bool)
    (auth : AuthMode) : Nat :=
  match auth with
  | .noAuth => if 0 ∈ methods then 0 else 255
  | .password _ _ =>
    if whitelisted then
      if 0 ∈ methods then 0 else 255
    else
      if 2 ∈ methods then 2 else 255

/-- `negotiate_auth_method`: parses the greeting read from the socket and
returns the two-byte reply together with the selected method, or a
protocol error.  Mirrors server.rs lines 113-158. -/
def negotiate_auth_method (bytes : List Nat) (whitelisted : Bool)
    (auth : AuthMode) : Except String (List Nat × Nat) :=
  match bytes with
  | b0 :: b1 :: rest =>
    if b0 ≠ 5 then .error "InvalidData"
    else if bytes.length < 2 + b1 then .error "InvalidData"
    else
      .ok ([5, selectMethod (rest.take b1) whitelisted auth],
        selectMethod (rest.take b1) whitelisted auth)
  | _ => .error "InvalidData"

/-- What `serve_socks5` (server.rs lines 177-197) does with the selected
method: `0` proceeds without auth, `2` runs the password sub-negotiation,
anything else returns `Err(NoAcceptableAuthMethods)` before reading any
further protocol bytes. -/
inductive NegOutcome where
  | noAuthAccepted
  | passwordFlow
  | refused
deriving DecidableEq, Repr

def dispatchSelected (m : Nat) : NegOutcome :=
  if m = 0 then .noAuthAccepted
  else if m = 2 then .passwordFlow
  else .refused

/-! ## Serialized form (timestamp_serde, server_auth_once.rs lines 444-464)

On disk a timestamp is stored as Unix seconds:
`serialize` is `duration_since(UNIX_EPOCH).unwrap_or_default().as_secs()`
and `deserialize` is `UNIX_EPOCH + Duration::from_secs(secs)`. -/

def timestampSer (t : Nat) : Nat := t

def timestampDe (secs : Nat) : Nat := secs

/-- A `WhitelistEntry` as it appears in the JSON file. -/
structure DiskEntry where
  added_at_secs : Nat
  ttl_seconds : Option Nat
  first_auth_user : Option String
  connection_count : Nat
deriving DecidableEq, Repr

def WhitelistEntry.toDisk (e : WhitelistEntry) : DiskEntry :=
  { added_at_secs := timestampSer e.added_at
    ttl_seconds := e.ttl_seconds
    first_auth_user := e.first_auth_user
    connection_count := e.connection_count }

def DiskEntry.toEntry (d : DiskEntry) : WhitelistEntry :=
  { added_at := timestampDe d.added_at_secs
    ttl_seconds := d.ttl_seconds
    first_auth_user := d.first_auth_user
    connection_count := d.connection_count }

/-- `WhitelistData` (server_auth_once.rs lines 137-156), in its on-disk form. -/
structure WhitelistData where
  version : Nat
  created_at : Nat
  last_modified : Nat
  entries : List (IpAddr × DiskEntry)
deriving DecidableEq, Repr

/-- The snapshot `save_to_disk` serializes (server_auth_once.rs lines 238-243). -/
def saveData (s : AuthState) (now : Nat) : WhitelistData :=
  { version := 1
    created_at := now
    last_modified := now
    entries := s.cache.map (fun p => (p.1, p.2.toDisk)) }

/-- What reading + parsing the whitelist file can yield: the file is absent,
it fails to read or parse, or it parses to a `WhitelistData`. -/
inductive FileState where
  | missing
  | corrupt
  | parsed (data : WhitelistData)

/-- One iteration of the load loop (server_auth_once.rs lines 212-220):
an expired entry is skipped and counted, a live one is inserted. -/
def loadStep (now : Nat) (acc : Cache × Nat) (p : IpAddr × DiskEntry) :
    Cache × Nat :=
  if p.2.toEntry.is_expired now then (acc.1, acc.2 + 1)
  else (alistSet acc.1 p.1 p.2.toEntry, acc.2)

/-- `AuthState::load_from_disk` (lines 194-231): a missing file is not an
error; a parse failure is; parsed entries are filtered by expiry and
`dirty` is set when at least one expired entry was skipped. -/
def AuthState.load_from_disk (s : AuthState) (file : FileState) (now : Nat) :
    Except String AuthState :=
  match file with
  | .missing => .ok s
  | .corrupt => .error "Failed to parse whitelist JSON"
  | .parsed data =>
    let r := data.entries.foldl (loadStep now) (s.cache, 0)
    .ok { cache := r.1, dirty := s.dirty || decide (r.2 > 0) }

/-- `AuthState::new` (lines 173-191): starts from an empty store, attempts
the load, and on failure logs a warning (surfaced here as the second
component) and keeps the empty store — it never refuses to start. -/
def AuthState.new (file : FileState) (now : Nat) : AuthState × Option String :=
  let s0 : AuthState := { cache := [], dirty := false }
  match s0.load_from_disk file now with
  | .ok s => (s, none)
  | .error e => (s0, some e)

/-! ## Paths and the filesystem (save/backup, server_auth_once.rs lines 234-321) -/

/-- A path: directory, file stem and optional extension, mirroring the
parts of `std::path::Path` the code uses. -/
structure PathBuf where
  dir : String
  stem : String
  ext : Option String
deriving DecidableEq, Repr

/-- The file name within `dir` (stem, plus `.ext` when an extension is set). -/
def PathBuf.fileName (p : PathBuf) : String :=
  match p.ext with
  | some e => p.stem ++ "." ++ e
  | none => p.stem

/-- Rust `Path::with_extension`: replaces the extension when present,
appends one otherwise. -/
def PathBuf.withExtension (p : PathBuf) (e : String) : PathBuf :=
  { p with ext := some e }

/-- `path.with_extension("tmp")` — save_to_disk line 252. -/
def tempPathOf (p : PathBuf) : PathBuf := p.withExtension "tmp"

/-- `path.with_extension(format!("bak.{}", secs))` — create_backup line 271. -/
def backupPathOf (p : PathBuf) (secs : Nat) : PathBuf :=
  p.withExtension ("bak." ++ toString secs)

/-- A file: its contents and its modification time. -/
structure FileInfo where
  content : String
  mtime : Nat
deriving DecidableEq, Repr

abbrev FS := List (PathBuf × FileInfo)

/-- `name.starts_with(pre)`, computed on the character lists. -/
def strStarts (pre s : String) : Bool :=
  pre.data.isPrefixOf s.data

/-- The backup-name test of cleanup_old_backups (line 298): a file in the
same directory whose name starts with `{file_stem}.bak.`. -/
def isBakFor (path q : PathBuf) : Bool :=
  decide (q.dir = path.dir) && strStarts (path.stem ++ ".bak.") q.fileName

/-- The backup files for `path` currently present in the filesystem. -/
def backupsOf (fs : FS) (path : PathBuf) : FS :=
  fs.filter (fun e => isBakFor path e.1)

/-- The comparator of cleanup_old_backups line 309: newest (largest mtime)
first. -/
def bakOrder (a b : PathBuf × FileInfo) : Prop := b.2.mtime ≤ a.2.mtime

instance : DecidableRel bakOrder :=
  fun a b => inferInstanceAs (Decidable (b.2.mtime ≤ a.2.mtime))

instance : IsTotal (PathBuf × FileInfo) bakOrder :=
  ⟨fun a b => le_total b.2.mtime a.2.mtime⟩

instance : IsTrans (PathBuf × FileInfo) bakOrder :=
  ⟨fun _ _ _ hab hbc => le_trans hbc hab⟩

/-- `AuthState::cleanup_old_backups` (lines 290-321): collect the backups
of `path`, sort newest first, delete everything beyond the first `keep`. -/
def cleanup_old_backups (fs : FS) (path : PathBuf) (keep : Nat) : FS :=
  let sorted := List.insertionSort bakOrder (backupsOf fs path)
  let removed := (sorted.drop keep).map Prod.fst
  fs.filter (fun e => decide (e.1 ∉ removed))

/-- `AuthState::create_backup` (lines 270-287): copy `path` to its
timestamped backup name (a copy failure is only logged), then prune old
backups; always returns `Ok`. -/
def create_backup (fs : FS) (path : PathBuf) (nowSecs : Nat) (keep : Nat)
    (copyFails : Bool) : FS :=
  let fs1 :=
    if copyFails then fs
    else
      match alistLookup fs path with
      | some info => alistSet fs (backupPathOf path nowSecs) ⟨info.content, nowSecs⟩
      | none => fs
  cleanup_old_backups fs1 path keep

/-- Injected I/O failures for one save. -/
structure SaveEnv where
  writeFails : Bool
  renameFails : Bool
  copyFails : Bool
deriving DecidableEq, Repr

/-- Result of a save: the successive filesystem states (one per observable
step), the final filesystem, the final `dirty` flag, and success. -/
structure SaveResult where
  trace : List FS
  fs : FS
  dirty : Bool
  ok : Bool

/-- The backup step of save_to_disk (lines 246-249): only when the file
exists and `backup_count > 0`. -/
def backupStage (fs : FS) (path : PathBuf) (backupCount nowSecs : Nat)
    (copyFails : Bool) : FS :=
  if (alistLookup fs path).isSome = true ∧ 0 < backupCount then
    create_backup fs path nowSecs backupCount copyFails
  else fs

/-- `AuthState::save_to_disk` (lines 234-267): back up the existing file
when configured, write the snapshot to `path.with_extension("tmp")`, rename
it over `path`, and only then clear `dirty`; any failure returns early with
`dirty` untouched.  The three observable outcomes are keyed on which I/O
step fails first. -/
def save_to_disk (fs : FS) (dirty : Bool) (path : PathBuf) (content : String)
    (backupCount : Nat) (nowSecs : Nat) (env : SaveEnv) : SaveResult :=
  match env.writeFails, env.renameFails with
  | true, _ =>
    { trace := [fs, backupStage fs path backupCount nowSecs env.copyFails]
      fs := backupStage fs path backupCount nowSecs env.copyFails
      dirty := dirty
      ok := false }
  | false, true =>
    { trace := [fs, backupStage fs path backupCount nowSecs env.copyFails,
        alistSet (backupStage fs path backupCount nowSecs env.copyFails)
          (tempPathOf path) ⟨content, nowSecs⟩]
      fs := alistSet (backupStage fs path backupCount nowSecs env.copyFails)
        (tempPathOf path) ⟨content, nowSecs⟩
      dirty := dirty
      ok := false }
  | false, false =>
    { trace := [fs, backupStage fs path backupCount nowSecs env.copyFails,
        alistSet (backupStage fs path backupCount nowSecs env.copyFails)
          (tempPathOf path) ⟨content, nowSecs⟩,
        alistSet (alistRemove
          (alistSet (backupStage fs path backupCount nowSecs env.copyFails)
            (tempPathOf path) ⟨content, nowSecs⟩)
          (tempPathOf path)) path ⟨content, nowSecs⟩]
      fs := alistSet (alistRemove
        (alistSet (backupStage fs path backupCount nowSecs env.copyFails)
          (tempPathOf path) ⟨content, nowSecs⟩)
        (tempPathOf path)) path ⟨content, nowSecs⟩
      dirty := false
      ok := true }

/-! ## Helper lemmas about association-list maps -/

theorem alistLookup_remove_self {α β : Type} [DecidableEq α]
    (l : List (α × β)) (a : α) : alistLookup (alistRemove l a) a = none := by
  induction l with
  | nil => rfl
  | cons e rest ih =>
    by_cases h : e.1 = a
    · rw [alistRemove, if_pos h]
      exact ih
    · rw [alistRemove, if_neg h, alistLookup, if_neg h]
      exact ih

theorem alistLookup_remove_ne {α β : Type} [DecidableEq α]
    (l : List (α × β)) (a b : α) (h : b ≠ a) :
    alistLookup (alistRemove l a) b = alistLookup l b := by
  induction l with
  | nil => rfl
  | cons e rest ih =>
    by_cases he : e.1 = a
    · have hne : e.1 ≠ b := fun hc => h (hc ▸ he.symm ▸ he)
      rw [alistRemove, if_pos he, alistLookup, if_neg hne]
      exact ih
    · by_cases heb : e.1 = b
      · rw [alistRemove, if_neg he, alistLookup, if_pos heb, alistLookup, if_pos heb]
      · rw [alistRemove, if_neg he, alistLookup, if_neg heb, alistLookup, if_neg heb]
        exact ih

theorem alistLookup_set_self {α β : Type} [DecidableEq α]
    (l : List (α × β)) (a : α) (v : β) :
    alistLookup (alistSet l a v) a = some v := by
  rw [alistSet, alistLookup, if_pos rfl]

theorem alistLookup_set_ne {α β : Type} [DecidableEq α]
    (l : List (α × β)) (a b : α) (v : β) (h : b ≠ a) :
    alistLookup (alistSet l a v) b = alistLookup l b := by
  have ha : a ≠ b := fun hc => h hc.symm
  rw [alistSet, alistLookup, if_neg ha]
  exact alistLookup_remove_ne l a b h

theorem alistLookup_eq_none_iff {α β : Type} [DecidableEq α]
    (l : List (α × β)) (a : α) :
    alistLookup l a = none ↔ a ∉ l.map Prod.fst := by
  induction l with
  | nil => simp [alistLookup]
  | cons e rest ih =>
    by_cases h : e.1 = a
    · simp [alistLookup, h]
    · rw [alistLookup, if_neg h]
      simp only [List.map_cons, List.mem_cons, ih]
      constructor
      · intro hn hc
        rcases hc with hc | hc
        · exact h hc.symm
        · exact hn hc
      · intro hn
        exact fun hc => hn (Or.inr hc)

theorem alistLookup_some_mem {α β : Type} [DecidableEq α]
    (l : List (α × β)) (a : α) (v : β) (h : alistLookup l a = some v) :
    (a, v) ∈ l := by
  induction l with
  | nil => simp [alistLookup] at h
  | cons e rest ih =>
    by_cases he : e.1 = a
    · rw [alistLookup, if_pos he] at h
      have hv : e.2 = v := Option.some.inj h
      have : (a, v) = e := by
        rw [← he, ← hv]
      rw [this]
      exact List.mem_cons_self e rest
    · rw [alistLookup, if_neg he] at h
      exact List.mem_cons_of_mem _ (ih h)

theorem alistLookup_filter_of_true {α β : Type} [DecidableEq α]
    (l : List (α × β)) (a : α) (p : α × β → Bool)
    (hp : ∀ e, e.1 = a → p e = true) :
    alistLookup (l.filter p) a = alistLookup l a := by
  induction l with
  | nil => rfl
  | cons e rest ih =>
    by_cases he : e.1 = a
    · rw [List.filter_cons, if_pos (hp e he), alistLookup, if_pos he,
        alistLookup, if_pos he]
    · by_cases hpe : p e = true
      · rw [List.filter_cons, if_pos hpe, alistLookup, if_neg he,
          alistLookup, if_neg he]
        exact ih
      · rw [List.filter_cons, if_neg hpe, alistLookup, if_neg he]
        exact ih

/-! ## Helper lemmas about the load loop -/

theorem loadFoldl_count (now : Nat) (l : List (IpAddr × DiskEntry))
    (c : Cache) (k : Nat) :
    (l.foldl (loadStep now) (c, k)).2 =
      k + l.countP (fun p => p.2.toEntry.is_expired now) := by
  induction l generalizing c k with
  | nil => simp
  | cons p rest ih =>
    by_cases h : p.2.toEntry.is_expired now = true
    · simp only [List.foldl_cons, loadStep, h, if_pos rfl, List.countP_cons, ih]
      simp [h]
      omega
    · simp only [List.foldl_cons, loadStep, h, List.countP_cons, ih]
      simp [h]

theorem loadFoldl_lookup_not_mem (now : Nat) (l : List (IpAddr × DiskEntry))
    (c : Cache) (k : Nat) (ip : IpAddr) (h : ip ∉ l.map Prod.fst) :
    alistLookup (l.foldl (loadStep now) (c, k)).1 ip = alistLookup c ip := by
  induction l generalizing c k with
  | nil => rfl
  | cons p rest ih =>
    simp only [List.map_cons, List.mem_cons] at h
    push_neg at h
    simp only [List.foldl_cons]
    rw [ih _ _ h.2]
    simp only [loadStep]
    by_cases hexp : p.2.toEntry.is_expired now = true
    · simp [hexp]
    · simp [hexp, alistLookup_set_ne _ _ _ _ h.1]

theorem loadFoldl_lookup_mem (now : Nat) (l : List (IpAddr × DiskEntry))
    (c : Cache) (k : Nat) (ip : IpAddr) (d : DiskEntry)
    (hnd : (l.map Prod.fst).Nodup) (hmem : (ip, d) ∈ l) :
    alistLookup (l.foldl (loadStep now) (c, k)).1 ip =
      if d.toEntry.is_expired now then alistLookup c ip else some d.toEntry := by
  induction l generalizing c k with
  | nil => simp at hmem
  | cons p rest ih =>
    simp only [List.map_cons, List.nodup_cons] at hnd
    rcases List.mem_cons.mp hmem with hhead | htail
    · have hp1 : p.1 = ip := by rw [← hhead]
      have hnotin : ip ∉ rest.map Prod.fst := by rw [← hp1]; exact hnd.1
      simp only [List.foldl_cons]
      rw [loadFoldl_lookup_not_mem now rest _ _ ip hnotin]
      simp only [loadStep, ← hhead]
      by_cases hexp : d.toEntry.is_expired now = true
      · simp [hexp]
      · simp [hexp, alistLookup_set_self]
    · have hip : ip ∈ rest.map Prod.fst :=
        List.mem_map.mpr ⟨(ip, d), htail, rfl⟩
      have hne : ip ≠ p.1 := fun hc => hnd.1 (hc ▸ hip)
      simp only [List.foldl_cons]
      rw [ih _ _ hnd.2 htail]
      simp only [loadStep]
      by_cases hexp : p.2.toEntry.is_expired now = true
      · simp [hexp]
      · simp [hexp, alistLookup_set_ne _ _ _ _ hne]

/-! ## Claim theorems -/

/-- C1 (counterexample): a whitelisted client in password auth mode that
offers only method 0x02 does not get 0x02 selected — the server replies
0xFF (no acceptable method). -/
theorem c1_counterexample :
    negotiate_auth_method [5, 1, 2] true (AuthMode.password "u" "p") =
      .ok ([5, 255], 255) ∧ (255 : Nat) ≠ 2 :=
  ⟨rfl, by decide⟩

/-- C1 (amended): in password auth mode with the client's IP whitelisted,
the server selects 0x00 exactly when the greeting offered 0x00; when 0x00
was not offered (even if 0x02 was) it selects no acceptable method (0xFF)
and the connection is refused — it never forces NO-AUTH on a client that
did not advertise it. -/
theorem c1_whitelisted_never_forces_noauth (bytes : List Nat) (u p : String)
    (r : List Nat) (sel : Nat)
    (h : negotiate_auth_method bytes true (AuthMode.password u p) = .ok (r, sel)) :
    (sel = 0 ↔ 0 ∈ methodsOf bytes) ∧
      ((0 : Nat) ∉ methodsOf bytes →
        sel = 255 ∧ r = [5, 255] ∧ dispatchSelected sel = .refused) := by
  match bytes with
  | [] => exact absurd h (by simp [negotiate_auth_method])
  | [b0] => exact absurd h (by simp [negotiate_auth_method])
  | b0 :: b1 :: rest =>
    rw [negotiate_auth_method] at h
    by_cases h5 : b0 ≠ 5
    · rw [if_pos h5] at h
      exact absurd h (by simp)
    · rw [if_neg h5] at h
      by_cases hlen : (b0 :: b1 :: rest).length < 2 + b1
      · rw [if_pos hlen] at h
        exact absurd h (by simp)
      · rw [if_neg hlen] at h
        simp only [Except.ok.injEq, Prod.mk.injEq] at h
        obtain ⟨hr, hsel⟩ := h
        have hsm : selectMethod (rest.take b1) true (AuthMode.password u p) =
            if 0 ∈ rest.take b1 then 0 else 255 := rfl
        have hmof : methodsOf (b0 :: b1 :: rest) = rest.take b1 := rfl
        rw [hmof]
        by_cases h0 : (0 : Nat) ∈ rest.take b1
        · have hs : sel = 0 := by rw [← hsel, hsm, if_pos h0]
          exact ⟨⟨fun _ => h0, fun _ => hs⟩, fun hc => absurd h0 hc⟩
        · have hs : sel = 255 := by rw [← hsel, hsm, if_neg h0]
          have hrv : r = [5, 255] := by
            rw [← hr, hsm, if_neg h0]
          refine ⟨⟨fun hz => ?_, fun hc => absurd hc h0⟩,
            fun _ => ⟨hs, hrv, by rw [hs]; rfl⟩⟩
          rw [hs] at hz
          exact absurd hz (by decide)

/-- C1 (witness): a whitelisted client offering [0x00, 0x02] gets method
0x00 selected. -/
theorem c1_witness : (0 : Nat) = 0 ↔ (0 : Nat) ∈ methodsOf [5, 2, 0, 2] :=
  (c1_whitelisted_never_forces_noauth [5, 2, 0, 2] "u" "p" [5, 0] 0 rfl).1

/-- C2: in password auth mode with the client's IP not whitelisted, the
server replies [0x05, 0x02] when the greeting offered 0x02, and otherwise
replies [0x05, 0xFF] and the connection is refused before any further
protocol bytes are read (dispatch on the selected method yields
`Err(NoAcceptableAuthMethods)`). -/
theorem c2_password_requires_method_two (bytes : List Nat) (u p : String)
    (r : List Nat) (sel : Nat)
    (h : negotiate_auth_method bytes false (AuthMode.password u p) = .ok (r, sel)) :
    ((2 : Nat) ∈ methodsOf bytes → r = [5, 2] ∧ sel = 2) ∧
      ((2 : Nat) ∉ methodsOf bytes →
        r = [5, 255] ∧ sel = 255 ∧ dispatchSelected sel = .refused) := by
  match bytes with
  | [] => exact absurd h (by simp [negotiate_auth_method])
  | [b0] => exact absurd h (by simp [negotiate_auth_method])
  | b0 :: b1 :: rest =>
    rw [negotiate_auth_method] at h
    by_cases h5 : b0 ≠ 5
    · rw [if_pos h5] at h
      exact absurd h (by simp)
    · rw [if_neg h5] at h
      by_cases hlen : (b0 :: b1 :: rest).length < 2 + b1
      · rw [if_pos hlen] at h
        exact absurd h (by simp)
      · rw [if_neg hlen] at h
        simp only [Except.ok.injEq, Prod.mk.injEq] at h
        obtain ⟨hr, hsel⟩ := h
        have hsm : selectMethod (rest.take b1) false (AuthMode.password u p) =
            if 2 ∈ rest.take b1 then 2 else 255 := rfl
        have hmof : methodsOf (b0 :: b1 :: rest) = rest.take b1 := rfl
        rw [hmof]
        by_cases h2 : (2 : Nat) ∈ rest.take b1
        · have hs : sel = 2 := by rw [← hsel, hsm, if_pos h2]
          have hrv : r = [5, 2] := by rw [← hr, hsm, if_pos h2]
          exact ⟨fun _ => ⟨hrv, hs⟩, fun hc => absurd h2 hc⟩
        · have hs : sel = 255 := by rw [← hsel, hsm, if_neg h2]
          have hrv : r = [5, 255] := by rw [← hr, hsm, if_neg h2]
          exact ⟨fun hc => absurd hc h2,
            fun _ => ⟨hrv, hs, by rw [hs]; rfl⟩⟩

/-- C2 (witness): a non-whitelisted client offering only [0x00] gets the
reply [0x05, 0xFF] and the connection is refused. -/
theorem c2_witness :
    ([5, 255] : List Nat) = [5, 255] ∧ (255 : Nat) = 255 ∧
      dispatchSelected 255 = .refused :=
  (c2_password_requires_method_two [5, 1, 0] "u" "p" [5, 255] 255 rfl).2 (by decide)

/-- C3: an entry with no ttl never expires; an entry with ttl `d` is
expired exactly when the clock regressed below `added_at` or the elapsed
time strictly exceeds `d` (at elapsed time exactly `d` it is still
valid). -/
theorem c3_expiry_semantics (e : WhitelistEntry) (now : Nat) :
    (e.ttl_seconds = none → e.is_expired now = false) ∧
      (∀ d, e.ttl_seconds = some d →
        ((e.is_expired now = true ↔ (now < e.added_at ∨ e.added_at + d < now)) ∧
          e.is_expired (e.added_at + d) = false)) := by
  constructor
  · intro hn
    rw [WhitelistEntry.is_expired, hn]
  · intro d hd
    constructor
    · rw [WhitelistEntry.is_expired, hd]
      rw [WhitelistEntry.elapsedSecs]
      by_cases hlt : now < e.added_at
      · rw [if_pos hlt]
        simp only [true_iff]
        exact Or.inl hlt
      · rw [if_neg hlt]
        simp only [decide_eq_true_eq]
        constructor
        · intro hgt; right; omega
        · intro hor; rcases hor with hor | hor
          · exact absurd hor hlt
          · omega
    · rw [WhitelistEntry.is_expired, hd, WhitelistEntry.elapsedSecs]
      have h1 : ¬ (e.added_at + d < e.added_at) := by omega
      rw [if_neg h1]
      simp only [decide_eq_false_iff_not]
      omega

/-- C3 (witness): entry added at 100 with ttl 10, clock at 115 — expired
(elapsed 15 > 10), and still valid at exactly 110. -/
theorem c3_witness :
    (WhitelistEntry.is_expired ⟨100, some 10, none, 0⟩ 115 = true ↔
      (115 < 100 ∨ 100 + 10 < 115)) ∧
      WhitelistEntry.is_expired ⟨100, some 10, none, 0⟩ (100 + 10) = false :=
  (c3_expiry_semantics ⟨100, some 10, none, 0⟩ 115).2 10 rfl

/-- C4: `is_authenticated` returns true iff a non-expired entry exists for
the IP (false for IPs never added, with the state untouched); when it
observes an expired entry it removes it and sets `dirty`, so the expired
entry is logically absent. -/
theorem c4_is_authenticated_spec (s : AuthState) (ip : IpAddr) (now : Nat) :
    ((s.is_authenticated ip now).1 = true ↔
      ∃ e, alistLookup s.cache ip = some e ∧ e.is_expired now = false) ∧
      (alistLookup s.cache ip = none →
        (s.is_authenticated ip now).1 = false ∧ (s.is_authenticated ip now).2 = s) ∧
      (∀ e, alistLookup s.cache ip = some e → e.is_expired now = true →
        (s.is_authenticated ip now).1 = false ∧
          alistLookup (s.is_authenticated ip now).2.cache ip = none ∧
          (s.is_authenticated ip now).2.dirty = true) := by
  refine ⟨?_, ?_, ?_⟩
  · cases hl : alistLookup s.cache ip with
    | none =>
      have hred : s.is_authenticated ip now = (false, s) := by
        simp only [AuthState.is_authenticated, hl]
      rw [hred]
      constructor
      · intro hc
        exact absurd hc Bool.false_ne_true
      · rintro ⟨e, he, -⟩
        exact Option.noConfusion he
    | some entry =>
      by_cases hexp : entry.is_expired now = true
      · have hred : s.is_authenticated ip now =
            (false, ⟨alistRemove s.cache ip, true⟩) := by
          simp only [AuthState.is_authenticated, hl, hexp, if_true]
        rw [hred]
        constructor
        · intro hc
          exact absurd hc Bool.false_ne_true
        · rintro ⟨e, he, hne⟩
          rw [Option.some.inj he] at hexp
          rw [hexp] at hne
          exact absurd hne (by decide)
      · have hred : s.is_authenticated ip now =
            (true, { s with cache := alistSet s.cache ip entry.increment_usage }) := by
          simp only [AuthState.is_authenticated, hl]
          rw [if_neg hexp]
        have hfal : entry.is_expired now = false := by
          cases hb : entry.is_expired now
          · rfl
          · exact absurd hb hexp
        rw [hred]
        exact ⟨fun _ => ⟨entry, rfl, hfal⟩, fun _ => rfl⟩
  · intro hl
    have hred : s.is_authenticated ip now = (false, s) := by
      simp only [AuthState.is_authenticated, hl]
    rw [hred]
    exact ⟨rfl, rfl⟩
  · intro e hl hexp
    have hred : s.is_authenticated ip now =
        (false, ⟨alistRemove s.cache ip, true⟩) := by
      simp only [AuthState.is_authenticated, hl, hexp, if_true]
    rw [hred]
    exact ⟨rfl, alistLookup_remove_self s.cache ip, rfl⟩

/-- C4 (witness): a store holding an entry for IP 1 added at 100 with ttl
4, queried at 105 — the lookup reports false, deletes the entry and sets
`dirty`. -/
theorem c4_witness :
    ((⟨[(1, ⟨100, some 4, some "admin", 3⟩)], false⟩ :
        AuthState).is_authenticated 1 105).1 = false ∧
      alistLookup ((⟨[(1, ⟨100, some 4, some "admin", 3⟩)], false⟩ :
        AuthState).is_authenticated 1 105).2.cache 1 = none ∧
      ((⟨[(1, ⟨100, some 4, some "admin", 3⟩)], false⟩ :
        AuthState).is_authenticated 1 105).2.dirty = true :=
  (c4_is_authenticated_spec ⟨[(1, ⟨100, some 4, some "admin", 3⟩)], false⟩
    1 105).2.2 ⟨100, some 4, some "admin", 3⟩ rfl rfl

/-- C5: `add_authenticated_ip` inserts (overwriting) an entry whose
`added_at` is the current time and sets `dirty`; hence re-adding resets the
expiry window — added at t0 with ttl 10, re-added at t0+8, the IP is still
authenticated at t0+15. -/
theorem c5_add_resets_window (s : AuthState) (ip : IpAddr) (ttl : Option Nat)
    (u : String) (now : Nat) :
    alistLookup (s.add_authenticated_ip ip ttl u now).cache ip =
        some (WhitelistEntry.new now ttl (some u)) ∧
      (s.add_authenticated_ip ip ttl u now).dirty = true ∧
      (∀ t0 : Nat,
        (((s.add_authenticated_ip ip (some 10) u t0).add_authenticated_ip
            ip (some 10) u (t0 + 8)).is_authenticated ip (t0 + 15)).1 = true) := by
  refine ⟨?_, rfl, ?_⟩
  · exact alistLookup_set_self _ _ _
  · intro t0
    have hl : alistLookup ((s.add_authenticated_ip ip (some 10) u
        t0).add_authenticated_ip ip (some 10) u (t0 + 8)).cache ip =
        some (WhitelistEntry.new (t0 + 8) (some 10) (some u)) :=
      alistLookup_set_self _ _ _
    have hexp : (WhitelistEntry.new (t0 + 8) (some 10) (some u)).is_expired
        (t0 + 15) = false := by
      rw [WhitelistEntry.new, WhitelistEntry.is_expired]
      simp only [WhitelistEntry.elapsedSecs]
      have h1 : ¬ (t0 + 15 < t0 + 8) := by omega
      rw [if_neg h1]
      simp only [decide_eq_false_iff_not]
      omega
    simp only [AuthState.is_authenticated, hl, hexp]
    rfl

/-- C5 (witness): the re-add scenario at t0 = 100 on an empty store. -/
theorem c5_witness :
    ((((⟨[], false⟩ : AuthState).add_authenticated_ip 7 (some 10) "admin"
        100).add_authenticated_ip 7 (some 10) "admin" 108).is_authenticated
        7 115).1 = true :=
  (c5_add_resets_window ⟨[], false⟩ 7 (some 10) "admin" 100).2.2 100

/-- C10: a hit in `is_authenticated` increments the entry's
`connection_count` by exactly one as part of the lookup, leaving
`added_at`, `ttl_seconds` and `first_auth_user` unchanged; a fresh entry
starts at `connection_count = 0`. -/
theorem c10_hit_increments_count (s : AuthState) (ip : IpAddr) (now : Nat)
    (e : WhitelistEntry) (hl : alistLookup s.cache ip = some e)
    (hexp : e.is_expired now = false) :
    (s.is_authenticated ip now).1 = true ∧
      alistLookup (s.is_authenticated ip now).2.cache ip = some
        { added_at := e.added_at, ttl_seconds := e.ttl_seconds,
          first_auth_user := e.first_auth_user,
          connection_count := e.connection_count + 1 } ∧
      (∀ t u2, (WhitelistEntry.new now t u2).connection_count = 0) := by
  have hne : ¬ (e.is_expired now = true) := by
    rw [hexp]
    exact Bool.false_ne_true
  simp only [AuthState.is_authenticated, hl]
  rw [if_neg hne]
  exact ⟨rfl, alistLookup_set_self _ _ _, fun _ _ => rfl⟩

/-- C6: a missing whitelist file yields an empty store and no error; a
parse failure surfaces the error but the server starts with an empty
store; entries already expired at load time are not inserted, and when at
least one such entry exists the store is marked dirty. -/
theorem c6_load_fallback (now : Nat) :
    AuthState.new .missing now = ({ cache := [], dirty := false }, none) ∧
      (∃ msg, AuthState.new .corrupt now =
        ({ cache := [], dirty := false }, some msg)) ∧
      (∀ data : WhitelistData, ∀ ip d,
        (data.entries.map Prod.fst).Nodup → (ip, d) ∈ data.entries →
        d.toEntry.is_expired now = true →
        alistLookup (AuthState.new (.parsed data) now).1.cache ip = none ∧
          (AuthState.new (.parsed data) now).1.dirty = true) := by
  refine ⟨rfl, ⟨"Failed to parse whitelist JSON", rfl⟩, ?_⟩
  intro data ip d hnd hmem hexp
  have hred1 : (AuthState.new (.parsed data) now).1.cache =
      (data.entries.foldl (loadStep now) (([] : Cache), 0)).1 := rfl
  have hred2 : (AuthState.new (.parsed data) now).1.dirty =
      (false || decide ((data.entries.foldl (loadStep now) (([] : Cache), 0)).2 > 0)) :=
    rfl
  constructor
  · rw [hred1, loadFoldl_lookup_mem now data.entries [] 0 ip d hnd hmem,
      if_pos hexp]
    rfl
  · have hcount : (data.entries.foldl (loadStep now) (([] : Cache), 0)).2 =
        0 + data.entries.countP (fun p => p.2.toEntry.is_expired now) :=
      loadFoldl_count now data.entries [] 0
    have hpos : 0 < data.entries.countP (fun p => p.2.toEntry.is_expired now) :=
      List.countP_pos_iff.mpr ⟨(ip, d), hmem, hexp⟩
    rw [hred2]
    simp only [hcount, Bool.false_or, decide_eq_true_eq]
    omega

/-- C6 (witness): loading a file whose single entry (added at 100, ttl 10)
is already expired at time 200 yields a store without that entry, marked
dirty. -/
theorem c6_witness :
    alistLookup (AuthState.new
        (.parsed ⟨1, 0, 0, [(1, ⟨100, some 10, none, 0⟩)]⟩) 200).1.cache 1 =
        none ∧
      (AuthState.new
        (.parsed ⟨1, 0, 0, [(1, ⟨100, some 10, none, 0⟩)]⟩) 200).1.dirty = true :=
  (c6_load_fallback 200).2.2 ⟨1, 0, 0, [(1, ⟨100, some 10, none, 0⟩)]⟩ 1
    ⟨100, some 10, none, 0⟩ (by decide) (by decide) (by decide)

/-- C9: saving the store and loading the result back preserves every
non-expired entry exactly (its `added_at`, `ttl_seconds`,
`first_auth_user` and `connection_count`), drops the expired entries, and
invents no entry for IPs absent from the store. -/
theorem c9_round_trip (s : AuthState) (now : Nat)
    (hnd : (s.cache.map Prod.fst).Nodup) :
    (∀ ip e, alistLookup s.cache ip = some e →
      (e.is_expired now = false →
        alistLookup (AuthState.new (.parsed (saveData s now)) now).1.cache ip =
          some e) ∧
      (e.is_expired now = true →
        alistLookup (AuthState.new (.parsed (saveData s now)) now).1.cache ip =
          none)) ∧
    (∀ ip, alistLookup s.cache ip = none →
      alistLookup (AuthState.new (.parsed (saveData s now)) now).1.cache ip =
        none) := by
  have hkeys : ((saveData s now).entries.map Prod.fst) = s.cache.map Prod.fst := by
    rw [saveData]
    rw [List.map_map]
    rfl
  have hload : (AuthState.new (.parsed (saveData s now)) now).1.cache =
      ((saveData s now).entries.foldl (loadStep now) (([] : Cache), 0)).1 := rfl
  constructor
  · intro ip e hl
    have hmem : (ip, e) ∈ s.cache := alistLookup_some_mem s.cache ip e hl
    have hmem2 : (ip, e.toDisk) ∈ (saveData s now).entries := by
      rw [saveData]
      exact List.mem_map.mpr ⟨(ip, e), hmem, rfl⟩
    have hid : e.toDisk.toEntry = e := rfl
    have hmain := loadFoldl_lookup_mem now (saveData s now).entries [] 0 ip
      e.toDisk (hkeys ▸ hnd) hmem2
    rw [hid] at hmain
    constructor
    · intro hlive
      rw [hload, hmain, if_neg (by rw [hlive]; exact Bool.false_ne_true)]
    · intro hexp
      rw [hload, hmain, if_pos hexp]
      rfl
  · intro ip hl
    have hnotin : ip ∉ (saveData s now).entries.map Prod.fst := by
      rw [hkeys]
      exact (alistLookup_eq_none_iff s.cache ip).mp hl
    rw [hload, loadFoldl_lookup_not_mem now (saveData s now).entries [] 0 ip hnotin]
    rfl

/-- C9 (witness): a store with a live entry for IP 1 and an expired entry
for IP 2 at time 105 — after the save/load round trip IP 2 is gone and
IP 3 (never added) is still absent. -/
theorem c9_witness :
    alistLookup (AuthState.new (.parsed (saveData
        ⟨[(1, ⟨100, some 10, some "a", 2⟩), (2, ⟨50, some 10, none, 0⟩)], false⟩
        105)) 105).1.cache 2 = none ∧
      alistLookup (AuthState.new (.parsed (saveData
        ⟨[(1, ⟨100, some 10, some "a", 2⟩), (2, ⟨50, some 10, none, 0⟩)], false⟩
        105)) 105).1.cache 3 = none :=
  ⟨((c9_round_trip
      ⟨[(1, ⟨100, some 10, some "a", 2⟩), (2, ⟨50, some 10, none, 0⟩)], false⟩
      105 (by decide)).1 2 ⟨50, some 10, none, 0⟩ rfl).2 rfl,
    (c9_round_trip
      ⟨[(1, ⟨100, some 10, some "a", 2⟩), (2, ⟨50, some 10, none, 0⟩)], false⟩
      105 (by decide)).2 3 rfl⟩

/-- C10 (witness): a live entry for IP 1 with count 3 becomes count 4 after
the lookup, other fields untouched. -/
theorem c10_witness :
    ((⟨[(1, ⟨100, some 10, some "admin", 3⟩)], false⟩ :
        AuthState).is_authenticated 1 105).1 = true ∧
      alistLookup ((⟨[(1, ⟨100, some 10, some "admin", 3⟩)], false⟩ :
        AuthState).is_authenticated 1 105).2.cache 1 =
        some ⟨100, some 10, some "admin", 4⟩ :=
  ⟨(c10_hit_increments_count ⟨[(1, ⟨100, some 10, some "admin", 3⟩)], false⟩
      1 105 ⟨100, some 10, some "admin", 3⟩ rfl rfl).1,
    (c10_hit_increments_count ⟨[(1, ⟨100, some 10, some "admin", 3⟩)], false⟩
      1 105 ⟨100, some 10, some "admin", 3⟩ rfl rfl).2.1⟩

/-! ## Helper lemmas for the save/backup path -/

theorem mem_removed_isBak (fs : FS) (path : PathBuf) (keep : Nat) (q : PathBuf)
    (hq : q ∈ ((List.insertionSort bakOrder (backupsOf fs path)).drop keep).map
      Prod.fst) :
    isBakFor path q = true := by
  obtain ⟨e, he, hfst⟩ := List.mem_map.mp hq
  have h1 : e ∈ List.insertionSort bakOrder (backupsOf fs path) :=
    List.mem_of_mem_drop he
  have h2 : e ∈ backupsOf fs path :=
    (List.perm_insertionSort bakOrder (backupsOf fs path)).subset h1
  have h3 := (List.mem_filter.mp h2).2
  rw [← hfst]
  exact h3

theorem lookup_cleanup_of_not_bak (fs : FS) (path : PathBuf) (keep : Nat)
    (h : isBakFor path path = false) :
    alistLookup (cleanup_old_backups fs path keep) path = alistLookup fs path := by
  simp only [cleanup_old_backups]
  apply alistLookup_filter_of_true
  intro e he
  rw [decide_eq_true_eq]
  intro hc
  rw [he] at hc
  have := mem_removed_isBak fs path keep path hc
  rw [h] at this
  exact Bool.false_ne_true this

theorem lookup_create_backup (fs : FS) (path : PathBuf) (nowSecs keep : Nat)
    (cf : Bool) (hbak : isBakFor path path = false)
    (hbp : backupPathOf path nowSecs ≠ path) :
    alistLookup (create_backup fs path nowSecs keep cf) path =
      alistLookup fs path := by
  simp only [create_backup]
  rw [lookup_cleanup_of_not_bak _ _ _ hbak]
  cases cf with
  | true => rfl
  | false =>
    simp only [Bool.false_eq_true, if_false]
    cases hl : alistLookup fs path with
    | none => rw [hl]
    | some info =>
      rw [alistLookup_set_ne _ _ _ _ (fun hc => hbp hc.symm), hl]

theorem lookup_backupStage (fs : FS) (path : PathBuf) (bc nowSecs : Nat)
    (cf : Bool) (hbak : isBakFor path path = false)
    (hbp : backupPathOf path nowSecs ≠ path) :
    alistLookup (backupStage fs path bc nowSecs cf) path = alistLookup fs path := by
  rw [backupStage]
  split
  · exact lookup_create_backup fs path nowSecs bc cf hbak hbp
  · rfl

theorem backups_cleanup_filter (fs : FS) (path : PathBuf) (keep : Nat) :
    backupsOf (cleanup_old_backups fs path keep) path =
      (backupsOf fs path).filter (fun e => decide (e.1 ∉
        ((List.insertionSort bakOrder (backupsOf fs path)).drop keep).map
          Prod.fst)) := by
  simp only [cleanup_old_backups, backupsOf, List.filter_filter]
  apply List.filter_congr
  intro e _
  rw [Bool.and_comm]

/-- C7 (counterexample): for the whitelist file `whitelist.json`,
`path.with_extension("tmp")` yields `whitelist.tmp`, not the claimed
`whitelist.json.tmp`. -/
theorem c7_counterexample :
    (tempPathOf ⟨"/data", "whitelist", some "json"⟩).fileName = "whitelist.tmp" ∧
      (tempPathOf ⟨"/data", "whitelist", some "json"⟩).fileName ≠
        (⟨"/data", "whitelist", some "json"⟩ : PathBuf).fileName ++ ".tmp" := by
  constructor
  · rfl
  · decide

/-- C7 (amended): save writes the snapshot to a temporary file in the same
directory whose name is the path with its extension replaced by `tmp`
(`<stem>.tmp`), then renames it over `path`, so at every step the file at
`path` is either the old contents or the complete new snapshot; a
successful save clears `dirty` and leaves the new snapshot at `path`,
while any failing save leaves `dirty` unchanged (so a set flag stays set
and a later save retries). -/
theorem c7_save_atomic (fs : FS) (dirty : Bool) (path : PathBuf)
    (content : String) (bc nowSecs : Nat) (env : SaveEnv)
    (hbak : isBakFor path path = false)
    (hbp : backupPathOf path nowSecs ≠ path) :
    (tempPathOf path).dir = path.dir ∧
      (tempPathOf path).fileName = path.stem ++ "." ++ "tmp" ∧
      (∀ st ∈ (save_to_disk fs dirty path content bc nowSecs env).trace,
        alistLookup st path = alistLookup fs path ∨
          alistLookup st path = some ⟨content, nowSecs⟩) ∧
      ((save_to_disk fs dirty path content bc nowSecs env).ok = true →
        (save_to_disk fs dirty path content bc nowSecs env).dirty = false ∧
          alistLookup (save_to_disk fs dirty path content bc nowSecs env).fs
            path = some ⟨content, nowSecs⟩) ∧
      ((save_to_disk fs dirty path content bc nowSecs env).ok = false →
        (save_to_disk fs dirty path content bc nowSecs env).dirty = dirty) := by
  obtain ⟨wf, rf, cf⟩ := env
  have hstage : alistLookup (backupStage fs path bc nowSecs cf) path =
      alistLookup fs path := lookup_backupStage fs path bc nowSecs cf hbak hbp
  have htempLookup : ∀ fsx : FS,
      alistLookup (alistSet fsx (tempPathOf path) ⟨content, nowSecs⟩) path =
        alistLookup fsx path ∨
      alistLookup (alistSet fsx (tempPathOf path) ⟨content, nowSecs⟩) path =
        some ⟨content, nowSecs⟩ := by
    intro fsx
    by_cases htp : path = tempPathOf path
    · right
      rw [← htp]
      exact alistLookup_set_self _ _ _
    · left
      exact alistLookup_set_ne _ _ _ _ htp
  refine ⟨rfl, rfl, ?_, ?_, ?_⟩
  · intro st hst
    cases wf with
    | true =>
      simp only [save_to_disk, List.mem_cons, List.not_mem_nil, or_false] at hst
      rcases hst with h | h
      · left; rw [h]
      · left; rw [h]; exact hstage
    | false =>
      cases rf with
      | true =>
        simp only [save_to_disk, List.mem_cons, List.not_mem_nil, or_false] at hst
        rcases hst with h | h | h
        · left; rw [h]
        · left; rw [h]; exact hstage
        · rw [h]
          rcases htempLookup (backupStage fs path bc nowSecs cf) with h2 | h2
          · left; rw [h2]; exact hstage
          · right; exact h2
      | false =>
        simp only [save_to_disk, List.mem_cons, List.not_mem_nil, or_false] at hst
        rcases hst with h | h | h | h
        · left; rw [h]
        · left; rw [h]; exact hstage
        · rw [h]
          rcases htempLookup (backupStage fs path bc nowSecs cf) with h2 | h2
          · left; rw [h2]; exact hstage
          · right; exact h2
        · right; rw [h]; exact alistLookup_set_self _ _ _
  · intro hok
    cases wf with
    | true => exact absurd hok (by simp [save_to_disk])
    | false =>
      cases rf with
      | true => exact absurd hok (by simp [save_to_disk])
      | false => exact ⟨rfl, alistLookup_set_self _ _ _⟩
  · intro hfail
    cases wf with
    | true => rfl
    | false =>
      cases rf with
      | true => rfl
      | false => exact absurd hfail (by simp [save_to_disk])

/-- C7 (witness): a concrete successful save of `"new"` over
`/data/whitelist.json` holding `"old"` — the temp name is
`whitelist.tmp`, `dirty` ends false and the file holds the new
snapshot. -/
theorem c7_witness :
    (tempPathOf ⟨"/data", "whitelist", some "json"⟩).fileName =
        "whitelist" ++ "." ++ "tmp" ∧
      (save_to_disk [(⟨"/data", "whitelist", some "json"⟩, ⟨"old", 1⟩)] true
          ⟨"/data", "whitelist", some "json"⟩ "new" 3 9
          ⟨false, false, false⟩).dirty = false ∧
      alistLookup (save_to_disk [(⟨"/data", "whitelist", some "json"⟩, ⟨"old", 1⟩)]
          true ⟨"/data", "whitelist", some "json"⟩ "new" 3 9
          ⟨false, false, false⟩).fs ⟨"/data", "whitelist", some "json"⟩ =
        some ⟨"new", 9⟩ :=
  ⟨(c7_save_atomic [(⟨"/data", "whitelist", some "json"⟩, ⟨"old", 1⟩)] true
      ⟨"/data", "whitelist", some "json"⟩ "new" 3 9 ⟨false, false, false⟩
      (by decide) (by decide)).2.1,
    (c7_save_atomic [(⟨"/data", "whitelist", some "json"⟩, ⟨"old", 1⟩)] true
      ⟨"/data", "whitelist", some "json"⟩ "new" 3 9 ⟨false, false, false⟩
      (by decide) (by decide)).2.2.2.1 rfl⟩

theorem filter_append_not_in_second (l1 l2 : List (PathBuf × FileInfo))
    (hdisj : List.Disjoint (l1.map Prod.fst) (l2.map Prod.fst)) :
    (l1 ++ l2).filter (fun e => decide (e.1 ∉ l2.map Prod.fst)) = l1 := by
  rw [List.filter_append]
  have htake : l1.filter (fun e => decide (e.1 ∉ l2.map Prod.fst)) = l1 := by
    apply List.filter_eq_self.mpr
    intro e he
    rw [decide_eq_true_eq]
    exact fun hc => hdisj (List.mem_map_of_mem Prod.fst he) hc
  have hdrop : l2.filter (fun e => decide (e.1 ∉ l2.map Prod.fst)) = [] := by
    apply List.filter_eq_nil_iff.mpr
    intro e he
    rw [decide_eq_true_eq]
    exact fun hc => hc (List.mem_map_of_mem Prod.fst he)
  rw [htake, hdrop, List.append_nil]

theorem filter_not_dropped_perm_take (B S : List (PathBuf × FileInfo))
    (keep : Nat) (hperm : S.Perm B) (hkeys : (S.map Prod.fst).Nodup) :
    (B.filter (fun e =>
        decide (e.1 ∉ (S.drop keep).map Prod.fst))).Perm (S.take keep) := by
  have hsplit : S.take keep ++ S.drop keep = S := List.take_append_drop keep S
  have hdisj : List.Disjoint ((S.take keep).map Prod.fst)
      ((S.drop keep).map Prod.fst) := by
    have h2 : (((S.take keep).map Prod.fst) ++
        ((S.drop keep).map Prod.fst)).Nodup := by
      rw [← List.map_append, hsplit]
      exact hkeys
    exact (List.nodup_append.mp h2).2.2
  have hstep : S.filter (fun e =>
      decide (e.1 ∉ (S.drop keep).map Prod.fst)) = S.take keep := by
    have hswap : S.filter (fun e =>
        decide (e.1 ∉ (S.drop keep).map Prod.fst)) =
        (S.take keep ++ S.drop keep).filter (fun e =>
          decide (e.1 ∉ (S.drop keep).map Prod.fst)) := by
      rw [hsplit]
    rw [hswap]
    exact filter_append_not_in_second (S.take keep) (S.drop keep) hdisj
  have h1 : (B.filter (fun e =>
      decide (e.1 ∉ (S.drop keep).map Prod.fst))).Perm
      (S.filter (fun e => decide (e.1 ∉ (S.drop keep).map Prod.fst))) :=
    (hperm.filter _).symm
  rw [hstep] at h1
  exact h1

/-- C8 (counterexample): for `whitelist.json` the backup of the code is
named `whitelist.bak.<secs>` (extension replaced), not the claimed
`whitelist.json.bak.<secs>`. -/
theorem c8_counterexample :
    (backupPathOf ⟨"/data", "whitelist", some "json"⟩ 123).fileName ≠
      (⟨"/data", "whitelist", some "json"⟩ : PathBuf).fileName ++ ".bak." ++
        toString 123 := by
  decide

/-- C8 (amended): before overwriting, save copies the file to a backup in
the same directory named with the extension replaced by `bak.<unix_seconds>`
(`<stem>.bak.<secs>`); pruning then keeps exactly the `backup_count` newest
backups by file modification time (the surviving backups are a permutation
of the first `backup_count` of the descending-mtime sort, every survivor at
least as new as every deleted one); a backup copy failure does not abort
the save. -/
theorem c8_backup_rotation (fs : FS) (path : PathBuf) (keep secs : Nat)
    (hnd : (fs.map Prod.fst).Nodup) :
    ((backupPathOf path secs).dir = path.dir ∧
      (backupPathOf path secs).fileName =
        path.stem ++ "." ++ ("bak." ++ toString secs)) ∧
      (backupsOf (cleanup_old_backups fs path keep) path).Perm
        ((List.insertionSort bakOrder (backupsOf fs path)).take keep) ∧
      (List.insertionSort bakOrder (backupsOf fs path)).Sorted bakOrder ∧
      (List.insertionSort bakOrder (backupsOf fs path)).Perm
        (backupsOf fs path) ∧
      (∀ a ∈ (List.insertionSort bakOrder (backupsOf fs path)).take keep,
        ∀ b ∈ (List.insertionSort bakOrder (backupsOf fs path)).drop keep,
          b.2.mtime ≤ a.2.mtime) ∧
      (∀ fsx : FS, ∀ dx : Bool, ∀ cx : String, ∀ bcx nowx : Nat,
        (save_to_disk fsx dx path cx bcx nowx
          ⟨false, false, true⟩).ok = true) := by
  have hperm : (List.insertionSort bakOrder (backupsOf fs path)).Perm
      (backupsOf fs path) := List.perm_insertionSort bakOrder _
  have hsorted : (List.insertionSort bakOrder (backupsOf fs path)).Sorted
      bakOrder := List.sorted_insertionSort bakOrder _
  have hBkeys : ((backupsOf fs path).map Prod.fst).Nodup := by
    have hsub : List.Sublist ((backupsOf fs path).map Prod.fst)
        (fs.map Prod.fst) := (List.filter_sublist fs).map Prod.fst
    exact hnd.sublist hsub
  have hSkeys : ((List.insertionSort bakOrder
      (backupsOf fs path)).map Prod.fst).Nodup :=
    ((hperm.map Prod.fst).nodup_iff).mpr hBkeys
  refine ⟨⟨rfl, rfl⟩, ?_, hsorted, hperm, ?_, ?_⟩
  · rw [backups_cleanup_filter fs path keep]
    exact filter_not_dropped_perm_take (backupsOf fs path)
      (List.insertionSort bakOrder (backupsOf fs path)) keep hperm hSkeys
  · intro a ha b hb
    have hsplit : (List.insertionSort bakOrder (backupsOf fs path)).take keep ++
        (List.insertionSort bakOrder (backupsOf fs path)).drop keep =
        List.insertionSort bakOrder (backupsOf fs path) :=
      List.take_append_drop keep _
    have hpw : List.Pairwise bakOrder
        ((List.insertionSort bakOrder (backupsOf fs path)).take keep ++
          (List.insertionSort bakOrder (backupsOf fs path)).drop keep) := by
      rw [hsplit]
      exact hsorted
    exact (List.pairwise_append.mp hpw).2.2 a ha b hb
  · intro fsx dx cx bcx nowx
    rfl

/-- C8 (witness): with `wl.json` plus three backups (mtimes 1, 2, 3) and
`backup_count = 2`, pruning keeps the two newest backups. -/
theorem c8_witness :
    ((backupPathOf ⟨"/d", "wl", some "json"⟩ 5).dir =
        (⟨"/d", "wl", some "json"⟩ : PathBuf).dir ∧
      (backupPathOf ⟨"/d", "wl", some "json"⟩ 5).fileName =
        "wl" ++ "." ++ ("bak." ++ toString 5)) ∧
      (backupsOf (cleanup_old_backups
          [(⟨"/d", "wl", some "json"⟩, ⟨"c0", 9⟩),
            (⟨"/d", "wl", some "bak.1"⟩, ⟨"c1", 1⟩),
            (⟨"/d", "wl", some "bak.2"⟩, ⟨"c2", 2⟩),
            (⟨"/d", "wl", some "bak.3"⟩, ⟨"c3", 3⟩)]
          ⟨"/d", "wl", some "json"⟩ 2) ⟨"/d", "wl", some "json"⟩).Perm
        ((List.insertionSort bakOrder (backupsOf
          [(⟨"/d", "wl", some "json"⟩, ⟨"c0", 9⟩),
            (⟨"/d", "wl", some "bak.1"⟩, ⟨"c1", 1⟩),
            (⟨"/d", "wl", some "bak.2"⟩, ⟨"c2", 2⟩),
            (⟨"/d", "wl", some "bak.3"⟩, ⟨"c3", 3⟩)]
          ⟨"/d", "wl", some "json"⟩)).take 2) :=
  ⟨(c8_backup_rotation
      [(⟨"/d", "wl", some "json"⟩, ⟨"c0", 9⟩),
        (⟨"/d", "wl", some "bak.1"⟩, ⟨"c1", 1⟩),
        (⟨"/d", "wl", some "bak.2"⟩, ⟨"c2", 2⟩),
        (⟨"/d", "wl", some "bak.3"⟩, ⟨"c3", 3⟩)]
      ⟨"/d", "wl", some "json"⟩ 2 5 (by decide)).1,
    (c8_backup_rotation
      [(⟨"/d", "wl", some "json"⟩, ⟨"c0", 9⟩),
        (⟨"/d", "wl", some "bak.1"⟩, ⟨"c1", 1⟩),
        (⟨"/d", "wl", some "bak.2"⟩, ⟨"c2", 2⟩),
        (⟨"/d", "wl", some "bak.3"⟩, ⟨"c3", 3⟩)]
      ⟨"/d", "wl", some "json"⟩ 2 5 (by decide)).2.1⟩

end FastSocks
